import Mathlib

/-!
# Mock Twitter stream: the request handler and its emission loop

A shallow embedding of `src/main.go` (`tweetStreamHandler`) together with the
parts of the Go standard library the handler calls (`strings.Split`,
`rand.IntN`, `json.Encoder.Encode`, `http.Error`).

Go strings are byte sequences: a string is a list of natural numbers, its
bytes. The UTF-8 tables treat a value of 256 or more like the bytes 0xF5-0xFF,
which begin no valid sequence. The string encoder follows encoding/json as of
Go 1.22, the first release with math/rand/v2, which main.go imports.

The handler's loop never ends, so the handler is observed through the first n
turns of its loop: `tweetStreamHandler env r n` gives the status reached and
the actions performed so far.
-/

namespace MockTwitterStream

/-! ## Strings -/

/-- A Go string: its sequence of bytes. -/
abbrev GoString := List Nat

/-- The bytes of an ASCII literal. -/
def str (s : String) : GoString := s.toList.map Char.toNat

/-- The separator passed to strings.Split by the handler: the byte of ",". -/
def comma : Nat := 0x2C

/-- Go strings.IndexByte: the index of the first occurrence of c in s,
none where Go returns -1. -/
def IndexByte : GoString → Nat → Option Nat
  | [], _ => none
  | b :: s, c => if b = c then some 0 else (IndexByte s c).map (· + 1)

/-- Go strings.Count for a one-byte separator: the number of occurrences. -/
def Count : GoString → Nat → Nat
  | [], _ => 0
  | b :: s, c => (if b = c then 1 else 0) + Count s c

/-- The loop of Go strings.genSplit (sepSave = 0, one-byte separator) with k
slots left before the last one: cut at the first separator while one is found. -/
def genSplitLoop : Nat → GoString → Nat → List GoString
  | 0, s, _ => [s]
  | k + 1, s, sep =>
    match IndexByte s sep with
    | none => [s]
    | some m => s.take m :: genSplitLoop k (s.drop (m + 1)) sep

/-- Go strings.genSplit for a one-byte separator and sepSave = 0. -/
def genSplit (s : GoString) (sep : Nat) (n : Int) : List GoString :=
  if n = 0 then []
  else
    let n1 : Nat := if n < 0 then Count s sep + 1 else n.toNat
    let n2 : Nat := if n1 > s.length + 1 then s.length + 1 else n1
    genSplitLoop (n2 - 1) s sep

/-- Go strings.Split(s, sep) = genSplit(s, sep, 0, -1). -/
def Split (s : GoString) (sep : Nat) : List GoString := genSplit s sep (-1)

/-- The tail of Go strings.Join: each further element preceded by the separator. -/
def joinRest : List GoString → GoString → GoString
  | [], _ => []
  | e :: rest, sep => sep ++ e ++ joinRest rest sep

/-- Go strings.Join. -/
def Join : List GoString → GoString → GoString
  | [], _ => []
  | e :: rest, sep => e ++ joinRest rest sep

/-! ## math/rand/v2, time and indexing -/

/-- Go rand.IntN(n): panics (none) when n ≤ 0, otherwise returns a value of the
half-open interval [0, n). The argument raw is the raw output of the random
source for this call; as raw ranges over the naturals the result ranges over
exactly the values IntN can return. -/
def IntN (raw : Nat) (n : Int) : Option Int :=
  if n ≤ 0 then none else some ((raw : Int) % n)

/-- Reduction of an integer to the two's-complement int64 range. -/
def wrapInt64 (x : Int) : Int := (x + 2 ^ 63) % 2 ^ 64 - 2 ^ 63

/-- Go time.Second, in nanoseconds. -/
def Second : Int := 1000000000

/-- The argument of time.Sleep on line 53: time.Duration(1+r) * time.Second,
for r the value returned by rand.IntN(3). -/
def sleepDuration (r : Int) : Int := wrapInt64 (wrapInt64 (1 + r) * Second)

/-- A Go index expression a[i]: none where Go panics (index out of range). -/
def index {α : Type} (a : List α) (i : Int) : Option α :=
  if 0 ≤ i ∧ i < (a.length : Int) then a[i.toNat]? else none

/-! ## The tweet and its generator -/

/-- The Tweet struct of main.go: one field, Text, with JSON key "text". -/
structure Tweet where
  Text : GoString
deriving DecidableEq, Repr

/-- The literal "Someone just mentioned " of line 59. -/
def mentionPrefix : GoString := str "Someone just mentioned "

/-- Line 56: word := tracks[rand.IntN(len(tracks))]; none where Go panics. -/
def pickWord (tracks : List GoString) (raw : Nat) : Option GoString :=
  match IntN raw (tracks.length : Int) with
  | none => none
  | some i => index tracks i

/-- Lines 58-60: the tweet built from the drawn word. -/
def makeTweet (word : GoString) : Tweet := { Text := mentionPrefix ++ word }

/-! ## unicode/utf8 -/

/-- Go utf8.RuneError, U+FFFD. -/
def RuneError : Nat := 0xFFFD

/-- Go utf8.RuneSelf: bytes below it are single-byte runes. -/
def RuneSelf : Nat := 0x80

/-- Go utf8.first: information about the first byte of a UTF-8 sequence
(0xF0 = ASCII, 0xF1 = invalid, else accept-range index in the high nibble and
size in the low one). -/
def first (b : Nat) : Nat :=
  if b < 0x80 then 0xF0
  else if b < 0xC2 then 0xF1
  else if b < 0xE0 then 0x02
  else if b = 0xE0 then 0x13
  else if b < 0xED then 0x03
  else if b = 0xED then 0x23
  else if b < 0xF0 then 0x03
  else if b = 0xF0 then 0x34
  else if b < 0xF4 then 0x04
  else if b = 0xF4 then 0x44
  else 0xF1

/-- Go utf8.acceptRanges: the bounds (lo, hi) allowed for the second byte. -/
def acceptRanges (i : Nat) : Nat × Nat :=
  if i = 0 then (0x80, 0xBF)
  else if i = 1 then (0xA0, 0xBF)
  else if i = 2 then (0x80, 0x9F)
  else if i = 3 then (0x90, 0xBF)
  else if i = 4 then (0x80, 0x8F)
  else (0, 0)

/-- Go utf8.DecodeRuneInString: the first rune of s and its width in bytes;
(RuneError, 0) for the empty string and (RuneError, 1) for an invalid encoding. -/
def DecodeRuneInString (s : GoString) : Nat × Nat :=
  match s with
  | [] => (RuneError, 0)
  | s0 :: t =>
    let x := first s0
    if x ≥ 0xF0 then
      if x = 0xF1 then (RuneError, 1) else (s0, 1)
    else
      let sz := x &&& 7
      let accept := acceptRanges (x >>> 4)
      if s.length < sz then (RuneError, 1)
      else
        match t with
        | [] => (RuneError, 1)
        | s1 :: t1 =>
          if s1 < accept.1 ∨ accept.2 < s1 then (RuneError, 1)
          else if sz ≤ 2 then (((s0 &&& 0x1F) <<< 6) ||| (s1 &&& 0x3F), 2)
          else
            match t1 with
            | [] => (RuneError, 1)
            | s2 :: t2 =>
              if s2 < 0x80 ∨ 0xBF < s2 then (RuneError, 1)
              else if sz ≤ 3 then
                (((s0 &&& 0x0F) <<< 12) ||| ((s1 &&& 0x3F) <<< 6) ||| (s2 &&& 0x3F), 3)
              else
                match t2 with
                | [] => (RuneError, 1)
                | s3 :: _ =>
                  if s3 < 0x80 ∨ 0xBF < s3 then (RuneError, 1)
                  else
                    (((s0 &&& 0x07) <<< 18) ||| ((s1 &&& 0x3F) <<< 12) |||
                      ((s2 &&& 0x3F) <<< 6) ||| (s3 &&& 0x3F), 4)

/-- Whether a string is valid UTF-8 (Go utf8.ValidString), by decoding rune
after rune; the first argument bounds the number of runes read. -/
def validLoop : Nat → GoString → Bool
  | _, [] => true
  | 0, _ :: _ => false
  | fuel + 1, b :: rest =>
    let d := DecodeRuneInString (b :: rest)
    if d.1 = RuneError ∧ d.2 = 1 then false
    else validLoop fuel ((b :: rest).drop d.2)

/-- Go utf8.ValidString. -/
def ValidString (s : GoString) : Bool := validLoop s.length s

/-- A string coerced to valid UTF-8 the way encoding/json documents for string
values: each byte that does not begin a valid UTF-8 sequence is replaced by
the encoding of U+FFFD, valid sequences are kept. The first argument bounds
the number of runes. -/
def coerceLoop : Nat → GoString → GoString
  | _, [] => []
  | 0, _ :: _ => []
  | fuel + 1, b :: rest =>
    let d := DecodeRuneInString (b :: rest)
    if d.1 = RuneError ∧ d.2 = 1 then [0xEF, 0xBF, 0xBD] ++ coerceLoop fuel rest
    else (b :: rest).take d.2 ++ coerceLoop fuel ((b :: rest).drop d.2)

/-- A string coerced to valid UTF-8. -/
def coerceUTF8 (s : GoString) : GoString := coerceLoop s.length s

/-! ## encoding/json: writing -/

/-- Go encoding/json htmlSafeSet: the ASCII bytes written without escaping
when HTML escaping is on (the Encoder default). -/
def htmlSafeSet (b : Nat) : Bool :=
  decide (0x20 ≤ b ∧ b ≤ 0x7F ∧ b ≠ 0x22 ∧ b ≠ 0x26 ∧ b ≠ 0x3C ∧ b ≠ 0x3E ∧ b ≠ 0x5C)

/-- The digit table "0123456789abcdef" of encoding/json. -/
def hex (n : Nat) : Nat := if n < 10 then 0x30 + n else 0x61 + (n - 10)

/-- The switch of encoding/json appendString on an ASCII byte that is not in
htmlSafeSet: a two-character escape, or \u00XX. -/
def escapeByte (b : Nat) : GoString :=
  if b = 0x5C ∨ b = 0x22 then [0x5C, b]
  else if b = 0x08 then [0x5C, 0x62]
  else if b = 0x0C then [0x5C, 0x66]
  else if b = 0x0A then [0x5C, 0x6E]
  else if b = 0x0D then [0x5C, 0x72]
  else if b = 0x09 then [0x5C, 0x74]
  else [0x5C, 0x75, 0x30, 0x30, hex (b >>> 4), hex (b &&& 0xF)]

/-- The loop of encoding/json appendString with escapeHTML = true, on the part
of the source not yet consumed; the first argument bounds the iterations
(each consumes at least one byte). -/
def appendStringLoop : Nat → GoString → GoString
  | _, [] => []
  | 0, _ :: _ => []
  | fuel + 1, b :: rest =>
    if b < RuneSelf then
      (if htmlSafeSet b then [b] else escapeByte b) ++ appendStringLoop fuel rest
    else
      let d := DecodeRuneInString ((b :: rest).take 4)
      if d.1 = RuneError ∧ d.2 = 1 then
        [0x5C, 0x75, 0x66, 0x66, 0x66, 0x64] ++ appendStringLoop fuel rest
      else if d.1 = 0x2028 ∨ d.1 = 0x2029 then
        [0x5C, 0x75, 0x32, 0x30, 0x32, hex (d.1 &&& 0xF)] ++
          appendStringLoop fuel ((b :: rest).drop d.2)
      else
        (b :: rest).take d.2 ++ appendStringLoop fuel ((b :: rest).drop d.2)

/-- Go encoding/json appendString(nil, src, true): the quoted JSON string. -/
def appendString (src : GoString) : GoString :=
  0x22 :: (appendStringLoop src.length src ++ [0x22])

/-- Go json.Marshal of a Tweet: the struct encoder writes the opening brace,
the quoted field name "text", a colon, the encoded value and the closing brace. -/
def marshalTweet (t : Tweet) : GoString :=
  [0x7B, 0x22] ++ str "text" ++ [0x22, 0x3A] ++ appendString t.Text ++ [0x7D]

/-- The bytes json.Encoder.Encode passes to the writer in one Write call: the
marshalled value followed by a newline. -/
def encodeLine (t : Tweet) : GoString := marshalTweet t ++ [0x0A]

/-! ## The request handler -/

/-- The parsed form of a request (Go url.Values): keys with their values. -/
abbrev Values := List (GoString × List GoString)

/-- The part of *http.Request the handler reads. -/
structure Request where
  /-- Field r.Method. -/
  Method : GoString
  /-- Outcome of r.ParseForm(): none when it returns an error, else r.Form. -/
  ParseForm : Option Values

/-- Go Request.FormValue: the first value for the key, "" when there is none. -/
def FormValue (form : Values) (key : GoString) : GoString :=
  match form.lookup key with
  | some (v :: _) => v
  | _ => []

/-- What the handler's surroundings decide: the random source, the response
sink and the request's context. -/
structure Env where
  /-- Raw output of the k-th call to the process-wide random source. -/
  rand : Nat → Nat
  /-- Whether the ResponseWriter implements http.Flusher. -/
  isFlusher : Bool
  /-- Whether the k-th Write on the response reports an I/O error. -/
  writeErr : Nat → Bool
  /-- Whether the request's context is cancelled when iteration k starts. -/
  ctxDone : Nat → Bool

/-- The observable actions of the handler. -/
inductive Event
  | httpError (msg : GoString) (code : Nat)
  | logTopics (tracks : List GoString)
  | setContentType (v : GoString)
  | sleep (d : Int)
  | write (p : GoString) (err : Bool)
  | flush
deriving DecidableEq

/-- Where the handler stands: returned, still inside its loop, or panicked. -/
inductive Status
  | returned
  | running
  | panicked
deriving DecidableEq

/-- The state carried through the loop of lines 51-63. -/
structure LoopState where
  /-- Calls made to the random source. -/
  draws : Nat
  /-- Write calls made on the response. -/
  writes : Nat
  /-- Actions so far, oldest first. -/
  events : List Event

/-- One iteration of the loop of lines 51-63: sleep, pick a word, build the
tweet, Encode it (the error is assigned to the blank identifier) and Flush.
The body has no break and no return; none is a panic. -/
def loopIteration (env : Env) (tracks : List GoString) (st : LoopState) : Option LoopState :=
  match IntN (env.rand st.draws) 3 with
  | none => none
  | some r =>
    match pickWord tracks (env.rand (st.draws + 1)) with
    | none => none
    | some word =>
      let tweet := makeTweet word
      let err := env.writeErr st.writes
      some { draws := st.draws + 2, writes := st.writes + 1,
             events := st.events ++
               [Event.sleep (sleepDuration r), Event.write (encodeLine tweet) err, Event.flush] }

/-- The first n iterations of the for loop of lines 51-63. -/
def runLoop (env : Env) (tracks : List GoString) : Nat → LoopState → Status × LoopState
  | 0, st => (Status.running, st)
  | n + 1, st =>
    match loopIteration env tracks st with
    | none => (Status.panicked, st)
    | some st1 => runLoop env tracks n st1

/-- The message of the third http.Error call (line 36). -/
def missingTrackMsg : GoString := str "Missing " ++ [0x27] ++ str "track" ++ [0x27] ++ str " parameter"

/-- The handler of main.go, observed until it returns or has gone n times
round its loop: the status reached and the actions so far. -/
def tweetStreamHandler (env : Env) (r : Request) (n : Nat) : Status × List Event :=
  if r.Method ≠ str "POST" then
    (Status.returned, [Event.httpError (str "Method not allowed") 405])
  else
    match r.ParseForm with
    | none => (Status.returned, [Event.httpError (str "Invalid form data") 400])
    | some form =>
      let tracks := Split (FormValue form (str "track")) comma
      if tracks.length = 0 then
        (Status.returned, [Event.httpError missingTrackMsg 400])
      else
        let ev := [Event.logTopics tracks, Event.setContentType (str "application/json")]
        if env.isFlusher = false then
          (Status.returned, ev ++ [Event.httpError (str "Streaming not supported") 500])
        else
          let res := runLoop env tracks n { draws := 0, writes := 0, events := ev }
          (res.1, res.2.events)

/-- The lines written to the response: the payloads of the write actions. -/
def writtenLines : List Event → List GoString
  | [] => []
  | Event.write p _ :: rest => p :: writtenLines rest
  | _ :: rest => writtenLines rest

/-! ## Reading JSON (RFC 8259)

A reader of JSON text, used to state what a client recovers from an emitted
line. It reads objects whose member values are strings. -/

/-- The value of a hexadecimal digit. -/
def hexVal (b : Nat) : Option Nat :=
  if 0x30 ≤ b ∧ b ≤ 0x39 then some (b - 0x30)
  else if 0x61 ≤ b ∧ b ≤ 0x66 then some (b - 0x61 + 10)
  else if 0x41 ≤ b ∧ b ≤ 0x46 then some (b - 0x41 + 10)
  else none

/-- The code unit written by four hexadecimal digits. -/
def hex4 (a b c d : Nat) : Option Nat :=
  match hexVal a, hexVal b, hexVal c, hexVal d with
  | some x, some y, some z, some w => some (((x * 16 + y) * 16 + z) * 16 + w)
  | _, _, _, _ => none

/-- The UTF-8 encoding of a code point. -/
def encodeRune (r : Nat) : GoString :=
  if r < 0x80 then [r]
  else if r < 0x800 then [0xC0 + r / 64, 0x80 + r % 64]
  else if r < 0x10000 then [0xE0 + r / 4096, 0x80 + r / 64 % 64, 0x80 + r % 64]
  else [0xF0 + r / 262144, 0x80 + r / 4096 % 64, 0x80 + r / 64 % 64, 0x80 + r % 64]

/-- The character a two-character escape stands for. -/
def unescape (e : Nat) : Option Nat :=
  if e = 0x22 then some 0x22
  else if e = 0x5C then some 0x5C
  else if e = 0x2F then some 0x2F
  else if e = 0x62 then some 0x08
  else if e = 0x66 then some 0x0C
  else if e = 0x6E then some 0x0A
  else if e = 0x72 then some 0x0D
  else if e = 0x74 then some 0x09
  else none

/-- Puts bytes in front of the value read by the rest of a string. -/
def prepend (p : GoString) (r : Option (GoString × GoString)) : Option (GoString × GoString) :=
  match r with
  | none => none
  | some (v, rest) => some (p ++ v, rest)

/-- Reads the escape that follows a backslash: the bytes it stands for and the
input left. A \u escape of a high surrogate must be followed by one of a low
surrogate; malformed escapes are refused. -/
def readEscape (s : GoString) : Option (GoString × GoString) :=
  match s with
  | [] => none
  | e :: rest1 =>
    if e = 0x75 then
      match rest1 with
      | h1 :: h2 :: h3 :: h4 :: rest2 =>
        match hex4 h1 h2 h3 h4 with
        | none => none
        | some cp =>
          if 0xD800 ≤ cp ∧ cp < 0xDC00 then
            match rest2 with
            | b1 :: b2 :: l1 :: l2 :: l3 :: l4 :: rest3 =>
              if b1 = 0x5C ∧ b2 = 0x75 then
                match hex4 l1 l2 l3 l4 with
                | none => none
                | some lo =>
                  if 0xDC00 ≤ lo ∧ lo < 0xE000 then
                    some (encodeRune (0x10000 + (cp - 0xD800) * 0x400 + (lo - 0xDC00)), rest3)
                  else none
              else none
            | _ => none
          else if 0xDC00 ≤ cp ∧ cp < 0xE000 then none
          else some (encodeRune cp, rest2)
      | _ => none
    else
      match unescape e with
      | none => none
      | some c => some ([c], rest1)

/-- Reads a JSON string after its opening quote: the string's value and the
input left after the closing quote. Unescaped control characters and
malformed escapes are refused. The first argument bounds the number of
characters read. -/
def readStringLoop : Nat → GoString → Option (GoString × GoString)
  | 0, _ => none
  | _ + 1, [] => none
  | fuel + 1, b :: rest =>
    if b = 0x22 then some ([], rest)
    else if b = 0x5C then
      match readEscape rest with
      | none => none
      | some (bytes, rest1) => prepend bytes (readStringLoop fuel rest1)
    else if b < 0x20 then none
    else prepend [b] (readStringLoop fuel rest)

/-- Reads a JSON string after its opening quote. -/
def readString (s : GoString) : Option (GoString × GoString) := readStringLoop s.length s

/-- Drops leading JSON whitespace (space, tab, line feed, carriage return). -/
def skipWs : GoString → GoString
  | [] => []
  | b :: rest => if b = 0x20 ∨ b = 0x09 ∨ b = 0x0A ∨ b = 0x0D then skipWs rest else b :: rest

/-- Reads one member name : value of an object, the value a string; returns
the pair and the input after the value and the whitespace following it. -/
def readMember (s : GoString) : Option ((GoString × GoString) × GoString) :=
  match s with
  | [] => none
  | q :: s1 =>
    if q = 0x22 then
      match readString s1 with
      | none => none
      | some (k, s2) =>
        match skipWs s2 with
        | [] => none
        | c :: s3 =>
          if c = 0x3A then
            match skipWs s3 with
            | [] => none
            | q2 :: s4 =>
              if q2 = 0x22 then
                match readString s4 with
                | none => none
                | some (v, s5) => some ((k, v), skipWs s5)
              else none
          else none
    else none

/-- Reads the members of an object up to and including its closing brace; the
first argument bounds the number of members. -/
def readMembers : Nat → GoString → Option (List (GoString × GoString) × GoString)
  | 0, _ => none
  | fuel + 1, s =>
    match readMember s with
    | none => none
    | some (kv, s1) =>
      match s1 with
      | [] => none
      | c :: s2 =>
        if c = 0x7D then some ([kv], s2)
        else if c = 0x2C then
          match readMembers fuel (skipWs s2) with
          | none => none
          | some (kvs, s3) => some (kv :: kvs, s3)
        else none

/-- Reads a JSON object with string-valued members: its members in order and
the input left after the closing brace. -/
def readObject (s : GoString) : Option (List (GoString × GoString) × GoString) :=
  match skipWs s with
  | [] => none
  | c :: s1 =>
    if c = 0x7B then
      match skipWs s1 with
      | [] => none
      | d :: s2 => if d = 0x7D then some ([], s2) else readMembers s.length (d :: s2)
    else none

/-- Parses a line as JSON: the members of the object it holds, when the line
is exactly one object with optional whitespace around it. -/
def parseLine (s : GoString) : Option (List (GoString × GoString)) :=
  match readObject s with
  | none => none
  | some (kvs, rest) => if skipWs rest = [] then some kvs else none

/-! ## Split: lemmas -/

theorem indexByte_none_count {s : GoString} {c : Nat} (h : IndexByte s c = none) :
    Count s c = 0 := by
  induction s with
  | nil => rfl
  | cons b s ih =>
    simp only [IndexByte] at h
    split at h
    · simp at h
    · rename_i hb
      simp only [Option.map_eq_none'] at h
      simp [Count, hb, ih h]

theorem indexByte_some_spec {s : GoString} {c m : Nat} (h : IndexByte s c = some m) :
    s = s.take m ++ c :: s.drop (m + 1) ∧ c ∉ s.take m ∧
      Count s c = Count (s.drop (m + 1)) c + 1 := by
  induction s generalizing m with
  | nil => simp [IndexByte] at h
  | cons b s ih =>
    simp only [IndexByte] at h
    split at h
    · rename_i hb
      simp only [Option.some.injEq] at h
      subst h
      subst hb
      simp [Count]
      omega
    · rename_i hb
      simp only [Option.map_eq_some'] at h
      obtain ⟨m', hm', rfl⟩ := h
      obtain ⟨h1, h2, h3⟩ := ih hm'
      refine ⟨?_, ?_, ?_⟩
      · simp only [List.take_succ_cons, List.drop_succ_cons, List.cons_append]
        rw [← h1]
      · simp only [List.take_succ_cons, List.mem_cons, not_or]
        exact ⟨fun e => hb e.symm, h2⟩
      · simp only [Count, hb, if_false, List.drop_succ_cons, Nat.zero_add]
        exact h3

theorem count_le_length (s : GoString) (c : Nat) : Count s c ≤ s.length := by
  induction s with
  | nil => simp [Count]
  | cons b s ih =>
    simp only [Count, List.length_cons]
    split <;> omega

theorem count_zero_not_mem {s : GoString} {c : Nat} (h : Count s c = 0) : c ∉ s := by
  induction s with
  | nil => simp
  | cons b s ih =>
    simp only [Count] at h
    split at h
    · omega
    · rename_i hb
      simp only [Nat.zero_add] at h
      simp only [List.mem_cons, not_or]
      exact ⟨fun e => hb e.symm, ih h⟩

theorem split_eq_loop (s : GoString) (c : Nat) :
    Split s c = genSplitLoop (Count s c) s c := by
  have h := count_le_length s c
  have e1 : ¬ ((-1 : Int) = 0) := by decide
  have e2 : (-1 : Int) < 0 := by decide
  simp only [Split, genSplit, if_neg e1, if_pos e2]
  rw [if_neg (by omega)]
  rfl

theorem genSplitLoop_spec (k : Nat) (s : GoString) (c : Nat) (hk : Count s c = k) :
    (∀ e ∈ genSplitLoop k s c, c ∉ e) ∧ (genSplitLoop k s c).length = k + 1 ∧
      Join (genSplitLoop k s c) [c] = s := by
  induction k generalizing s with
  | zero =>
    simp only [genSplitLoop, List.mem_singleton, forall_eq, List.length_singleton, Join,
      joinRest, List.append_nil, and_true]
    exact count_zero_not_mem hk
  | succ k ih =>
    cases hi : IndexByte s c with
    | none => have := indexByte_none_count hi; omega
    | some m =>
      obtain ⟨h1, h2, h3⟩ := indexByte_some_spec hi
      obtain ⟨i1, i2, i3⟩ := ih (s.drop (m + 1)) (by omega)
      simp only [genSplitLoop, hi]
      refine ⟨?_, ?_, ?_⟩
      · intro e he
        simp only [List.mem_cons] at he
        rcases he with rfl | he
        · exact h2
        · exact i1 e he
      · simp [i2]
      · have hj : ∀ (l : List GoString), l ≠ [] →
            joinRest l [c] = c :: Join l [c] := by
          intro l hl
          cases l with
          | nil => exact absurd rfl hl
          | cons a l => simp [Join, joinRest]
        have hne : genSplitLoop k (List.drop (m + 1) s) c ≠ [] := by
          intro e
          rw [e] at i2
          simp at i2
        simp only [Join]
        rw [hj _ hne, i3]
        exact h1.symm

/-! ## The generator and the loop: lemmas -/

theorem intN_pos (raw : Nat) (n : Nat) (h : 0 < n) :
    IntN raw (n : Int) = some (((raw % n : Nat) : Int)) := by
  have : ¬ ((n : Int) ≤ 0) := by omega
  simp only [IntN, if_neg this]
  norm_cast

theorem index_nat {α : Type} (a : List α) (i : Nat) (h : i < a.length) :
    index a (i : Int) = some (a.get ⟨i, h⟩) := by
  have : (0 : Int) ≤ (i : Int) ∧ (i : Int) < (a.length : Int) := by omega
  simp only [index, if_pos this, Int.toNat_ofNat]
  exact List.getElem?_eq_getElem h

theorem pickWord_spec (tracks : List GoString) (raw : Nat) (h : 0 < tracks.length) :
    pickWord tracks raw = some (tracks.get ⟨raw % tracks.length, Nat.mod_lt _ h⟩) := by
  simp only [pickWord, intN_pos raw tracks.length h]
  exact index_nat tracks _ (Nat.mod_lt _ h)

theorem split_length_pos (s : GoString) (c : Nat) : 0 < (Split s c).length := by
  rw [split_eq_loop, (genSplitLoop_spec _ s c rfl).2.1]
  omega

theorem sleepDuration_small (r : Int) (h0 : 0 ≤ r) (h3 : r < 3) :
    sleepDuration r = (1 + r) * Second := by
  have h : r = 0 ∨ r = 1 ∨ r = 2 := by omega
  rcases h with rfl | rfl | rfl <;> decide

theorem loopIteration_spec (env : Env) (tracks : List GoString) (st : LoopState)
    (h : 0 < tracks.length) :
    loopIteration env tracks st =
      some { draws := st.draws + 2, writes := st.writes + 1,
             events := st.events ++
               [Event.sleep (sleepDuration ((env.rand st.draws % 3 : Nat) : Int)),
                Event.write (encodeLine (makeTweet
                  (tracks.get ⟨env.rand (st.draws + 1) % tracks.length, Nat.mod_lt _ h⟩)))
                  (env.writeErr st.writes),
                Event.flush] } := by
  have h3 : IntN (env.rand st.draws) 3 = some (((env.rand st.draws % 3 : Nat) : Int)) :=
    intN_pos (env.rand st.draws) 3 (by decide)
  simp only [loopIteration, h3, pickWord_spec tracks _ h]

theorem writtenLines_append (a b : List Event) :
    writtenLines (a ++ b) = writtenLines a ++ writtenLines b := by
  induction a with
  | nil => rfl
  | cons e a ih => cases e <;> simp [writtenLines, ih]

/-- An invariant of the action list that every iteration preserves holds after
any number of iterations, and the loop is then still running. -/
theorem runLoop_invariant (env : Env) (tracks : List GoString) (h : 0 < tracks.length)
    (P : List Event → Prop)
    (hstep : ∀ (ev : List Event) (r : Nat) (i : Nat) (hi : i < tracks.length) (e : Bool),
      P ev → r < 3 →
      P (ev ++ [Event.sleep (sleepDuration (r : Int)),
                Event.write (encodeLine (makeTweet (tracks.get ⟨i, hi⟩))) e, Event.flush]))
    (n : Nat) (st : LoopState) (h0 : P st.events) :
    (runLoop env tracks n st).1 = Status.running ∧ P (runLoop env tracks n st).2.events := by
  induction n generalizing st with
  | zero => exact ⟨rfl, h0⟩
  | succ n ih =>
    simp only [runLoop, loopIteration_spec env tracks st h]
    apply ih
    exact hstep _ _ _ _ _ h0 (Nat.mod_lt _ (by decide))

theorem runLoop_lines_length (env : Env) (tracks : List GoString) (h : 0 < tracks.length)
    (n : Nat) (st : LoopState) :
    (writtenLines (runLoop env tracks n st).2.events).length =
      (writtenLines st.events).length + n := by
  induction n generalizing st with
  | zero => rfl
  | succ n ih =>
    simp only [runLoop, loopIteration_spec env tracks st h]
    rw [ih]
    simp [writtenLines_append, writtenLines]
    omega

/-- On a POST request with a parsed form and a flushing writer the handler is
in its loop: its status and actions are those of runLoop. -/
theorem handler_stream (env : Env) (r : Request) (n : Nat) (form : Values)
    (hm : r.Method = str "POST") (hf : r.ParseForm = some form) (hfl : env.isFlusher = true) :
    tweetStreamHandler env r n =
      ((runLoop env (Split (FormValue form (str "track")) comma) n
          { draws := 0, writes := 0,
            events := [Event.logTopics (Split (FormValue form (str "track")) comma),
                       Event.setContentType (str "application/json")] }).1,
       (runLoop env (Split (FormValue form (str "track")) comma) n
          { draws := 0, writes := 0,
            events := [Event.logTopics (Split (FormValue form (str "track")) comma),
                       Event.setContentType (str "application/json")] }).2.events) := by
  have hl : ¬ ((Split (FormValue form (str "track")) comma).length = 0) := by
    have := split_length_pos (FormValue form (str "track")) comma
    omega
  simp [tweetStreamHandler, hm, hf, hfl, hl]

/-! ## UTF-8 decoding: lemmas -/

theorem or_low (a b : Nat) (i : Nat) (hb : b < 2 ^ i) : (a <<< i) ||| b = a * 2 ^ i + b := by
  rw [Nat.shiftLeft_eq, Nat.mul_comm a, Nat.mul_add_lt_is_or hb]

theorem bits2 (a b : Nat) : ((a &&& 0x1F) <<< 6) ||| (b &&& 0x3F) = a % 32 * 64 + b % 64 := by
  have h1 : a &&& 0x1F = a % 32 := Nat.and_pow_two_sub_one_eq_mod a 5
  have h2 : b &&& 0x3F = b % 64 := Nat.and_pow_two_sub_one_eq_mod b 6
  rw [h1, h2, or_low (a % 32) (b % 64) 6 (Nat.mod_lt _ (by decide))]
  omega

theorem bits3 (a b c : Nat) :
    ((a &&& 0x0F) <<< 12) ||| ((b &&& 0x3F) <<< 6) ||| (c &&& 0x3F) =
      a % 16 * 4096 + b % 64 * 64 + c % 64 := by
  have h1 : a &&& 0x0F = a % 16 := Nat.and_pow_two_sub_one_eq_mod a 4
  have h2 : b &&& 0x3F = b % 64 := Nat.and_pow_two_sub_one_eq_mod b 6
  have h3 : c &&& 0x3F = c % 64 := Nat.and_pow_two_sub_one_eq_mod c 6
  have hb : b % 64 < 64 := Nat.mod_lt _ (by decide)
  have hc : c % 64 < 64 := Nat.mod_lt _ (by decide)
  rw [h1, h2, h3, Nat.shiftLeft_eq (b % 64), or_low _ _ 12 (by omega)]
  have e : a % 16 * 2 ^ 12 + b % 64 * 2 ^ 6 = (a % 16 * 64 + b % 64) <<< 6 := by
    rw [Nat.shiftLeft_eq]; omega
  rw [e, or_low _ _ 6 hc]
  omega

theorem bits4 (a b c d : Nat) :
    ((a &&& 0x07) <<< 18) ||| ((b &&& 0x3F) <<< 12) ||| ((c &&& 0x3F) <<< 6) ||| (d &&& 0x3F) =
      a % 8 * 262144 + b % 64 * 4096 + c % 64 * 64 + d % 64 := by
  have h1 : a &&& 0x07 = a % 8 := Nat.and_pow_two_sub_one_eq_mod a 3
  have h2 : b &&& 0x3F = b % 64 := Nat.and_pow_two_sub_one_eq_mod b 6
  have h3 : c &&& 0x3F = c % 64 := Nat.and_pow_two_sub_one_eq_mod c 6
  have h4 : d &&& 0x3F = d % 64 := Nat.and_pow_two_sub_one_eq_mod d 6
  have hb : b % 64 < 64 := Nat.mod_lt _ (by decide)
  have hc : c % 64 < 64 := Nat.mod_lt _ (by decide)
  have hd : d % 64 < 64 := Nat.mod_lt _ (by decide)
  rw [h1, h2, h3, h4, Nat.shiftLeft_eq (b % 64), Nat.shiftLeft_eq (c % 64),
    or_low _ _ 18 (by omega)]
  have e : a % 8 * 2 ^ 18 + b % 64 * 2 ^ 12 = (a % 8 * 64 + b % 64) <<< 12 := by
    rw [Nat.shiftLeft_eq]; omega
  rw [e, or_low _ _ 12 (by omega)]
  have e2 : (a % 8 * 64 + b % 64) * 2 ^ 12 + c % 64 * 2 ^ 6 =
      ((a % 8 * 64 + b % 64) * 64 + c % 64) <<< 6 := by
    rw [Nat.shiftLeft_eq]; omega
  rw [e2, or_low _ _ 6 hd]
  omega


theorem and7 : (0x02 &&& 7 : Nat) = 2 ∧ (0x13 &&& 7 : Nat) = 3 ∧ (0x03 &&& 7 : Nat) = 3 ∧
    (0x23 &&& 7 : Nat) = 3 ∧ (0x34 &&& 7 : Nat) = 4 ∧ (0x04 &&& 7 : Nat) = 4 ∧
    (0x44 &&& 7 : Nat) = 4 := by decide

theorem shr4 : (0x02 >>> 4 : Nat) = 0 ∧ (0x13 >>> 4 : Nat) = 1 ∧ (0x03 >>> 4 : Nat) = 0 ∧
    (0x23 >>> 4 : Nat) = 2 ∧ (0x34 >>> 4 : Nat) = 3 ∧ (0x04 >>> 4 : Nat) = 0 ∧
    (0x44 >>> 4 : Nat) = 4 := by decide


theorem decode2 (s0 : Nat) (t : GoString) (hx : first s0 = 0x02) :
    DecodeRuneInString (s0 :: t) = (RuneError, 1) ∨
    (∃ s1 t1, t = s1 :: t1 ∧ 0x80 ≤ s1 ∧ s1 ≤ 0xBF ∧
      DecodeRuneInString (s0 :: t) = (s0 % 32 * 64 + s1 % 64, 2)) := by
  rcases t with _ | ⟨s1, t1⟩
  · left
    simp [DecodeRuneInString, hx, and7]
  · by_cases hr : s1 < 0x80 ∨ 0xBF < s1
    · left
      simp [DecodeRuneInString, hx, and7, shr4, acceptRanges, hr]
    · right
      refine ⟨s1, t1, rfl, by omega, by omega, ?_⟩
      simp only [DecodeRuneInString, hx, and7, shr4, acceptRanges, hr]
      simp only [List.length_cons]
      rw [if_neg (by decide), if_neg (by omega), if_neg (by simpa using hr), if_pos (by decide), bits2]

theorem decode3 (s0 : Nat) (t : GoString) (lo hi : Nat) (hlt : first s0 < 0xF0)
    (h7 : first s0 &&& 7 = 3) (hacc : acceptRanges (first s0 >>> 4) = (lo, hi)) :
    DecodeRuneInString (s0 :: t) = (RuneError, 1) ∨
    (∃ s1 s2 t2, t = s1 :: s2 :: t2 ∧ lo ≤ s1 ∧ s1 ≤ hi ∧ 0x80 ≤ s2 ∧ s2 ≤ 0xBF ∧
      DecodeRuneInString (s0 :: t) = (s0 % 16 * 4096 + s1 % 64 * 64 + s2 % 64, 3)) := by
  have hge : ¬ (first s0 ≥ 0xF0) := by omega
  rcases t with _ | ⟨s1, _ | ⟨s2, t2⟩⟩
  · left
    simp [DecodeRuneInString, hge, h7]
  · left
    simp [DecodeRuneInString, hge, h7]
  · by_cases hr : s1 < lo ∨ hi < s1
    · left
      simp only [DecodeRuneInString, if_neg hge, h7, hacc, List.length_cons]
      rw [if_neg (by omega), if_pos hr]
    · by_cases hr2 : s2 < 0x80 ∨ 0xBF < s2
      · left
        simp only [DecodeRuneInString, if_neg hge, h7, hacc, List.length_cons]
        rw [if_neg (by omega), if_neg hr, if_neg (by decide), if_pos hr2]
      · right
        refine ⟨s1, s2, t2, rfl, by omega, by omega, by omega, by omega, ?_⟩
        simp only [DecodeRuneInString, if_neg hge, h7, hacc, List.length_cons]
        rw [if_neg (by omega), if_neg hr, if_neg (by decide), if_neg hr2, if_pos (by decide),
          bits3]

theorem decode4 (s0 : Nat) (t : GoString) (lo hi : Nat) (hlt : first s0 < 0xF0)
    (h7 : first s0 &&& 7 = 4) (hacc : acceptRanges (first s0 >>> 4) = (lo, hi)) :
    DecodeRuneInString (s0 :: t) = (RuneError, 1) ∨
    (∃ s1 s2 s3 t3, t = s1 :: s2 :: s3 :: t3 ∧ lo ≤ s1 ∧ s1 ≤ hi ∧ 0x80 ≤ s2 ∧ s2 ≤ 0xBF ∧
      0x80 ≤ s3 ∧ s3 ≤ 0xBF ∧
      DecodeRuneInString (s0 :: t) =
        (s0 % 8 * 262144 + s1 % 64 * 4096 + s2 % 64 * 64 + s3 % 64, 4)) := by
  have hge : ¬ (first s0 ≥ 0xF0) := by omega
  rcases t with _ | ⟨s1, _ | ⟨s2, _ | ⟨s3, t3⟩⟩⟩
  · left
    simp [DecodeRuneInString, hge, h7]
  · left
    simp [DecodeRuneInString, hge, h7]
  · left
    simp [DecodeRuneInString, hge, h7]
  · by_cases hr : s1 < lo ∨ hi < s1
    · left
      simp only [DecodeRuneInString, if_neg hge, h7, hacc, List.length_cons]
      rw [if_neg (by omega), if_pos hr]
    · by_cases hr2 : s2 < 0x80 ∨ 0xBF < s2
      · left
        simp only [DecodeRuneInString, if_neg hge, h7, hacc, List.length_cons]
        rw [if_neg (by omega), if_neg hr, if_neg (by decide), if_pos hr2]
      · by_cases hr3 : s3 < 0x80 ∨ 0xBF < s3
        · left
          simp only [DecodeRuneInString, if_neg hge, h7, hacc, List.length_cons]
          rw [if_neg (by omega), if_neg hr, if_neg (by decide), if_neg hr2, if_neg (by decide),
            if_pos hr3]
        · right
          refine ⟨s1, s2, s3, t3, rfl, by omega, by omega, by omega, by omega, by omega,
            by omega, ?_⟩
          simp only [DecodeRuneInString, if_neg hge, h7, hacc, List.length_cons]
          rw [if_neg (by omega), if_neg hr, if_neg (by decide), if_neg hr2, if_neg (by decide),
            if_neg hr3, bits4]

/-- What DecodeRuneInString returns on a nonempty string, by cases. -/
theorem decode_cases (s0 : Nat) (t : GoString) :
    DecodeRuneInString (s0 :: t) = (RuneError, 1) ∨
    (s0 < 0x80 ∧ DecodeRuneInString (s0 :: t) = (s0, 1)) ∨
    (∃ s1 t1, t = s1 :: t1 ∧ 0xC2 ≤ s0 ∧ s0 < 0xE0 ∧ 0x80 ≤ s1 ∧ s1 ≤ 0xBF ∧
      DecodeRuneInString (s0 :: t) = (s0 % 32 * 64 + s1 % 64, 2)) ∨
    (∃ s1 s2 t2, t = s1 :: s2 :: t2 ∧ 0xE0 ≤ s0 ∧ s0 < 0xF0 ∧ 0x80 ≤ s1 ∧ s1 ≤ 0xBF ∧
      0x80 ≤ s2 ∧ s2 ≤ 0xBF ∧ (s0 = 0xE0 → 0xA0 ≤ s1) ∧ (s0 = 0xED → s1 ≤ 0x9F) ∧
      DecodeRuneInString (s0 :: t) = (s0 % 16 * 4096 + s1 % 64 * 64 + s2 % 64, 3)) ∨
    (∃ s1 s2 s3 t3, t = s1 :: s2 :: s3 :: t3 ∧ 0xF0 ≤ s0 ∧ s0 < 0xF5 ∧ 0x80 ≤ s1 ∧ s1 ≤ 0xBF ∧
      0x80 ≤ s2 ∧ s2 ≤ 0xBF ∧ 0x80 ≤ s3 ∧ s3 ≤ 0xBF ∧
      (s0 = 0xF0 → 0x90 ≤ s1) ∧ (s0 = 0xF4 → s1 ≤ 0x8F) ∧
      DecodeRuneInString (s0 :: t) =
        (s0 % 8 * 262144 + s1 % 64 * 4096 + s2 % 64 * 64 + s3 % 64, 4)) := by
  by_cases c1 : s0 < 0x80
  · right; left
    have hf : first s0 = 0xF0 := by unfold first; rw [if_pos c1]
    exact ⟨c1, by simp [DecodeRuneInString, hf]⟩
  by_cases c2 : s0 < 0xC2
  · left
    have hf : first s0 = 0xF1 := by unfold first; rw [if_neg c1, if_pos c2]
    simp [DecodeRuneInString, hf]
  by_cases c3 : s0 < 0xE0
  · have hf : first s0 = 0x02 := by unfold first; rw [if_neg c1, if_neg c2, if_pos c3]
    rcases decode2 s0 t hf with h | ⟨s1, t1, ht, h1, h2, h⟩
    · exact Or.inl h
    · exact Or.inr (Or.inr (Or.inl ⟨s1, t1, ht, by omega, c3, h1, h2, h⟩))
  by_cases c4 : s0 = 0xE0
  · have hf : first s0 = 0x13 := by subst c4; decide
    rcases decode3 s0 t 0xA0 0xBF (by rw [hf]; decide) (by rw [hf]; decide)
      (by rw [hf]; decide) with h | ⟨s1, s2, t2, ht, h1, h2, h3, h4, h⟩
    · exact Or.inl h
    · exact Or.inr (Or.inr (Or.inr (Or.inl ⟨s1, s2, t2, ht, by omega, by omega, by omega, h2,
        h3, h4, fun _ => h1, fun _ => by omega, h⟩)))
  by_cases c5 : s0 < 0xED
  · have hf : first s0 = 0x03 := by
      unfold first; rw [if_neg c1, if_neg c2, if_neg c3, if_neg c4, if_pos c5]
    rcases decode3 s0 t 0x80 0xBF (by rw [hf]; decide) (by rw [hf]; decide)
      (by rw [hf]; decide) with h | ⟨s1, s2, t2, ht, h1, h2, h3, h4, h⟩
    · exact Or.inl h
    · exact Or.inr (Or.inr (Or.inr (Or.inl ⟨s1, s2, t2, ht, by omega, by omega, h1, h2,
        h3, h4, fun _ => by omega, fun _ => by omega, h⟩)))
  by_cases c6 : s0 = 0xED
  · have hf : first s0 = 0x23 := by subst c6; decide
    rcases decode3 s0 t 0x80 0x9F (by rw [hf]; decide) (by rw [hf]; decide)
      (by rw [hf]; decide) with h | ⟨s1, s2, t2, ht, h1, h2, h3, h4, h⟩
    · exact Or.inl h
    · exact Or.inr (Or.inr (Or.inr (Or.inl ⟨s1, s2, t2, ht, by omega, by omega, h1, by omega,
        h3, h4, fun _ => by omega, fun _ => h2, h⟩)))
  by_cases c7 : s0 < 0xF0
  · have hf : first s0 = 0x03 := by
      unfold first
      rw [if_neg c1, if_neg c2, if_neg c3, if_neg c4, if_neg c5, if_neg c6, if_pos c7]
    rcases decode3 s0 t 0x80 0xBF (by rw [hf]; decide) (by rw [hf]; decide)
      (by rw [hf]; decide) with h | ⟨s1, s2, t2, ht, h1, h2, h3, h4, h⟩
    · exact Or.inl h
    · exact Or.inr (Or.inr (Or.inr (Or.inl ⟨s1, s2, t2, ht, by omega, by omega, h1, h2,
        h3, h4, fun _ => by omega, fun _ => by omega, h⟩)))
  by_cases c8 : s0 = 0xF0
  · have hf : first s0 = 0x34 := by subst c8; decide
    rcases decode4 s0 t 0x90 0xBF (by rw [hf]; decide) (by rw [hf]; decide)
      (by rw [hf]; decide) with h | ⟨s1, s2, s3, t3, ht, h1, h2, h3, h4, h5, h6, h⟩
    · exact Or.inl h
    · exact Or.inr (Or.inr (Or.inr (Or.inr ⟨s1, s2, s3, t3, ht, by omega, by omega, by omega,
        h2, h3, h4, h5, h6, fun _ => h1, fun _ => by omega, h⟩)))
  by_cases c9 : s0 < 0xF4
  · have hf : first s0 = 0x04 := by
      unfold first
      rw [if_neg c1, if_neg c2, if_neg c3, if_neg c4, if_neg c5, if_neg c6, if_neg c7,
        if_neg c8, if_pos c9]
    rcases decode4 s0 t 0x80 0xBF (by rw [hf]; decide) (by rw [hf]; decide)
      (by rw [hf]; decide) with h | ⟨s1, s2, s3, t3, ht, h1, h2, h3, h4, h5, h6, h⟩
    · exact Or.inl h
    · exact Or.inr (Or.inr (Or.inr (Or.inr ⟨s1, s2, s3, t3, ht, by omega, by omega, h1,
        h2, h3, h4, h5, h6, fun _ => by omega, fun _ => by omega, h⟩)))
  by_cases c10 : s0 = 0xF4
  · have hf : first s0 = 0x44 := by subst c10; decide
    rcases decode4 s0 t 0x80 0x8F (by rw [hf]; decide) (by rw [hf]; decide)
      (by rw [hf]; decide) with h | ⟨s1, s2, s3, t3, ht, h1, h2, h3, h4, h5, h6, h⟩
    · exact Or.inl h
    · exact Or.inr (Or.inr (Or.inr (Or.inr ⟨s1, s2, s3, t3, ht, by omega, by omega, h1,
        by omega, h3, h4, h5, h6, fun _ => by omega, fun _ => h2, h⟩)))
  · left
    have hf : first s0 = 0xF1 := by
      unfold first
      rw [if_neg c1, if_neg c2, if_neg c3, if_neg c4, if_neg c5, if_neg c6, if_neg c7,
        if_neg c8, if_neg c9, if_neg c10]
    simp [DecodeRuneInString, hf]

theorem first_values (s0 : Nat) :
    first s0 = 0xF0 ∨ first s0 = 0xF1 ∨ first s0 = 0x02 ∨ first s0 = 0x13 ∨ first s0 = 0x03 ∨
      first s0 = 0x23 ∨ first s0 = 0x34 ∨ first s0 = 0x04 ∨ first s0 = 0x44 := by
  unfold first
  split_ifs <;> simp

theorem first_size_le (s0 : Nat) : first s0 &&& 7 ≤ 4 := by
  rcases first_values s0 with e | e | e | e | e | e | e | e | e <;> rw [e] <;> decide

theorem decode_take4 (s : GoString) :
    DecodeRuneInString (s.take 4) = DecodeRuneInString s := by
  rcases s with _ | ⟨a, _ | ⟨b, _ | ⟨c, _ | ⟨d, _ | ⟨e, t⟩⟩⟩⟩⟩ <;> try rfl
  by_cases hge : first a ≥ 0xF0
  · simp only [List.take, DecodeRuneInString, if_pos hge]
  · have hsz := first_size_le a
    have e1 : ¬ ((a :: [b, c, d]).length < first a &&& 7) := by
      simp only [List.length_cons, List.length_nil]; omega
    have e2 : ¬ ((a :: b :: c :: d :: e :: t).length < first a &&& 7) := by
      simp only [List.length_cons]; omega
    simp only [List.take, DecodeRuneInString, if_neg hge, if_neg e1, if_neg e2]

theorem decode_ascii (b : Nat) (t : GoString) (h : b < 0x80) :
    DecodeRuneInString (b :: t) = (b, 1) := by
  have hf : first b = 0xF0 := by unfold first; rw [if_pos h]
  simp [DecodeRuneInString, hf]

/-- A multi-byte rune that decodes without error: its width is within the
string and each of its bytes is at least 0x80. -/
theorem decode_chunk (b : Nat) (t : GoString) (hb : 0x80 ≤ b)
    (hv : ¬ ((DecodeRuneInString (b :: t)).1 = RuneError ∧ (DecodeRuneInString (b :: t)).2 = 1)) :
    1 ≤ (DecodeRuneInString (b :: t)).2 ∧
      ∀ x ∈ (b :: t).take (DecodeRuneInString (b :: t)).2, 0x80 ≤ x := by
  rcases decode_cases b t with h | ⟨h1, _⟩ | ⟨s1, t1, ht, _, _, h1, _, h⟩ |
    ⟨s1, s2, t2, ht, _, _, h1, _, h2, _, _, _, h⟩ |
    ⟨s1, s2, s3, t3, ht, _, _, h1, _, h2, _, h3, _, _, _, h⟩
  · rw [h] at hv
    exact absurd ⟨rfl, rfl⟩ hv
  · omega
  · subst ht
    rw [h]
    refine ⟨by simp, ?_⟩
    intro x hx
    simp only [List.take_succ_cons, List.take_zero, List.mem_cons, List.mem_nil_iff,
      or_false] at hx
    rcases hx with rfl | rfl <;> assumption
  · subst ht
    rw [h]
    refine ⟨by simp, ?_⟩
    intro x hx
    simp only [List.take_succ_cons, List.take_zero, List.mem_cons, List.mem_nil_iff,
      or_false] at hx
    rcases hx with rfl | rfl | rfl <;> assumption
  · subst ht
    rw [h]
    refine ⟨by simp, ?_⟩
    intro x hx
    simp only [List.take_succ_cons, List.take_zero, List.mem_cons, List.mem_nil_iff,
      or_false] at hx
    rcases hx with rfl | rfl | rfl | rfl <;> assumption

/-- The only byte sequences that decode to U+2028 and U+2029. -/
theorem decode_line_separator (b : Nat) (t : GoString) (c : Nat) (hc : c = 0x2028 ∨ c = 0x2029)
    (hd : (DecodeRuneInString (b :: t)).1 = c) :
    (DecodeRuneInString (b :: t)).2 = 3 ∧ (b :: t).take 3 = [0xE2, 0x80, c - 0x2028 + 0xA8] := by
  rcases decode_cases b t with h | ⟨h1, h⟩ | ⟨s1, t1, ht, _, _, h1, _, h⟩ |
    ⟨s1, s2, t2, ht, g1, g2, h1, g3, h2, g4, _, _, h⟩ |
    ⟨s1, s2, s3, t3, ht, g1, g2, h1, _, h2, _, h3, _, i1, i2, h⟩
  · rw [h] at hd
    simp only [RuneError] at hd
    omega
  · rw [h] at hd
    simp only at hd
    omega
  · rw [h] at hd
    simp only at hd
    omega
  · subst ht
    rw [h] at hd ⊢
    simp only at hd
    refine ⟨rfl, ?_⟩
    have e0 : b = 0xE2 := by omega
    have e1 : s1 = 0x80 := by omega
    have e2 : s2 = c - 0x2028 + 0xA8 := by omega
    simp [e0, e1, e2]
  · rw [h] at hd
    simp only at hd
    by_cases hf : b = 0xF0
    · have := i1 hf
      omega
    · omega

/-! ## Reading back what the encoder writes: lemmas -/

theorem prepend_prepend (p q : GoString) (r : Option (GoString × GoString)) :
    prepend p (prepend q r) = prepend (p ++ q) r := by
  cases r with
  | none => rfl
  | some x => cases x; simp [prepend]

theorem read_plain (n b : Nat) (X : GoString) (h1 : b ≠ 0x22) (h2 : b ≠ 0x5C) (h3 : 0x20 ≤ b) :
    readStringLoop (n + 1) (b :: X) = prepend [b] (readStringLoop n X) := by
  rw [readStringLoop, if_neg h1, if_neg h2, if_neg (by omega)]

theorem read_quote (n : Nat) (X : GoString) :
    readStringLoop (n + 1) (0x22 :: X) = some ([], X) := by
  rw [readStringLoop, if_pos rfl]

theorem read_chunk (n : Nat) (chunk X : GoString) (h : ∀ x ∈ chunk, 0x80 ≤ x) :
    readStringLoop (n + chunk.length) (chunk ++ X) = prepend chunk (readStringLoop n X) := by
  induction chunk with
  | nil =>
    cases hX : readStringLoop n X with
    | none => simp [hX, prepend]
    | some x => cases x; simp [hX, prepend]
  | cons b chunk ih =>
    have hb := h b (List.mem_cons_self _ _)
    rw [List.cons_append, List.length_cons, ← Nat.add_assoc,
      read_plain _ b _ (by omega) (by omega) (by omega),
      ih (fun x hx => h x (List.mem_cons_of_mem _ hx)), prepend_prepend]
    rfl

theorem read_backslash (n : Nat) (Y Z bytes : GoString) (h : readEscape Y = some (bytes, Z)) :
    readStringLoop (n + 1) (0x5C :: Y) = prepend bytes (readStringLoop n Z) := by
  rw [readStringLoop, if_neg (by decide), if_pos rfl, h]

theorem readEscape_two (e c : Nat) (X : GoString) (he : e ≠ 0x75) (hu : unescape e = some c) :
    readEscape (e :: X) = some ([c], X) := by
  simp only [readEscape, if_neg he, hu]

theorem readEscape_u (h1 h2 h3 h4 cp : Nat) (X : GoString) (hh : hex4 h1 h2 h3 h4 = some cp)
    (hs : cp < 0xD800 ∨ 0xE000 ≤ cp) :
    readEscape (0x75 :: h1 :: h2 :: h3 :: h4 :: X) = some (encodeRune cp, X) := by
  simp only [readEscape, if_pos, hh]
  rw [if_neg (by omega), if_neg (by omega)]

theorem hexVal_hex (n : Nat) (h : n < 16) : hexVal (hex n) = some n := by
  interval_cases n <;> rfl

theorem hex4_byte (b : Nat) (h : b < 0x100) :
    hex4 0x30 0x30 (hex (b >>> 4)) (hex (b &&& 0xF)) = some b := by
  have e1 : b >>> 4 = b / 16 := Nat.shiftRight_eq_div_pow b 4
  have e2 : b &&& 0xF = b % 16 := Nat.and_pow_two_sub_one_eq_mod b 4
  have z : hexVal 0x30 = some 0 := rfl
  rw [e1, e2]
  simp only [hex4, z, hexVal_hex (b / 16) (by omega), hexVal_hex (b % 16) (Nat.mod_lt _ (by decide))]
  congr 1
  omega

/-- Reading back what appendString writes for one ASCII byte gives the byte. -/
theorem read_ascii (n b : Nat) (X : GoString) (hb : b < 0x80) :
    readStringLoop (n + 1) ((if htmlSafeSet b then [b] else escapeByte b) ++ X) =
      prepend [b] (readStringLoop n X) := by
  by_cases hs : htmlSafeSet b = true
  · rw [if_pos hs]
    simp only [htmlSafeSet, decide_eq_true_eq] at hs
    exact read_plain n b X (by omega) (by omega) (by omega)
  · rw [if_neg hs]
    have two : ∀ (e c : Nat), e ≠ 0x75 → unescape e = some c →
        readStringLoop (n + 1) ([0x5C, e] ++ X) = prepend [c] (readStringLoop n X) :=
      fun e c he hu => read_backslash n _ _ _ (readEscape_two e c X he hu)
    unfold escapeByte
    split_ifs with c1 c2 c3 c4 c5 c6
    · rcases c1 with rfl | rfl
      · exact two 0x5C 0x5C (by decide) rfl
      · exact two 0x22 0x22 (by decide) rfl
    · subst c2; exact two 0x62 0x08 (by decide) rfl
    · subst c3; exact two 0x66 0x0C (by decide) rfl
    · subst c4; exact two 0x6E 0x0A (by decide) rfl
    · subst c5; exact two 0x72 0x0D (by decide) rfl
    · subst c6; exact two 0x74 0x09 (by decide) rfl
    · have hr := read_backslash n _ _ _
        (readEscape_u 0x30 0x30 (hex (b >>> 4)) (hex (b &&& 0xF)) b X
          (hex4_byte b (by omega)) (Or.inl (by omega)))
      have he : encodeRune b = [b] := by unfold encodeRune; rw [if_pos hb]
      rw [he] at hr
      exact hr

theorem coerceLoop_ascii (fuel : Nat) (b : Nat) (t : GoString) (hb : b < 0x80) :
    coerceLoop (fuel + 1) (b :: t) = b :: coerceLoop fuel t := by
  simp only [coerceLoop, decode_ascii b t hb]
  rw [if_neg (by simp only [RuneError]; omega)]
  rfl

theorem escapeByte_length (b : Nat) : 1 ≤ (escapeByte b).length := by
  unfold escapeByte
  split_ifs <;> simp

/-- Reading back the body appendString writes, up to the closing quote, gives
the source string coerced to valid UTF-8. -/
theorem read_appendStringLoop (fuel : Nat) :
    ∀ (s X : GoString) (n : Nat), s.length ≤ fuel →
      (appendStringLoop fuel s).length + 1 ≤ n →
      readStringLoop n (appendStringLoop fuel s ++ 0x22 :: X) = some (coerceLoop fuel s, X) := by
  induction fuel with
  | zero =>
    intro s X n hs hn
    have : s = [] := List.length_eq_zero.mp (by omega)
    subst this
    obtain ⟨m, rfl⟩ : ∃ m, n = m + 1 := ⟨n - 1, by omega⟩
    simp only [appendStringLoop, coerceLoop, List.nil_append]
    exact read_quote m X
  | succ fuel ih =>
    intro s X n hs hn
    rcases s with _ | ⟨b, t⟩
    · obtain ⟨m, rfl⟩ : ∃ m, n = m + 1 := ⟨n - 1, by omega⟩
      simp only [appendStringLoop, coerceLoop, List.nil_append]
      exact read_quote m X
    · have hlen : t.length ≤ fuel := by simpa using hs
      by_cases hb : b < 0x80
      · rw [coerceLoop_ascii fuel b t hb]
        simp only [appendStringLoop, RuneSelf, if_pos hb] at hn ⊢
        have h1 : 1 ≤ (if htmlSafeSet b = true then [b] else escapeByte b).length := by
          split_ifs
          · simp
          · exact escapeByte_length b
        rw [List.length_append] at hn
        obtain ⟨m, rfl⟩ : ∃ m, n = m + 1 := ⟨n - 1, by omega⟩
        rw [List.append_assoc, read_ascii m b _ hb, ih t X m hlen (by omega)]
        rfl
      · simp only [appendStringLoop, RuneSelf, if_neg hb, decode_take4, coerceLoop] at hn ⊢
        by_cases hinv : (DecodeRuneInString (b :: t)).1 = RuneError ∧
            (DecodeRuneInString (b :: t)).2 = 1
        · rw [if_pos hinv] at hn ⊢
          rw [if_pos hinv]
          rw [List.length_append] at hn
          obtain ⟨m, rfl⟩ : ∃ m, n = m + 1 := ⟨n - 1, by omega⟩
          have hr := read_backslash m _ _ _
            (readEscape_u 0x66 0x66 0x66 0x64 0xFFFD
              (appendStringLoop fuel t ++ 0x22 :: X) (by decide) (by decide))
          rw [List.append_assoc]
          simp only [List.cons_append, List.nil_append] at hr ⊢
          rw [hr, ih t X m hlen (by simp at hn; omega)]
          rfl
        · rw [if_neg hinv] at hn ⊢
          rw [if_neg hinv]
          obtain ⟨hpos, hchunk⟩ := decode_chunk b t (by omega) hinv
          have hdrop : ((b :: t).drop (DecodeRuneInString (b :: t)).2).length ≤ fuel := by
            rw [List.length_drop]
            simp only [List.length_cons]
            omega
          by_cases hls : (DecodeRuneInString (b :: t)).1 = 0x2028 ∨
              (DecodeRuneInString (b :: t)).1 = 0x2029
          · rw [if_pos hls] at hn ⊢
            obtain ⟨hsz, htake⟩ := decode_line_separator b t _ hls rfl
            rw [hsz] at hdrop hn ⊢
            rw [htake, List.append_assoc]
            rw [List.length_append] at hn
            obtain ⟨m, rfl⟩ : ∃ m, n = m + 1 := ⟨n - 1, by omega⟩
            rcases hls with h | h
            · rw [h]
              have hr := read_backslash m _ _ _
                (readEscape_u 0x32 0x30 0x32 0x38 0x2028
                  (appendStringLoop fuel (List.drop 3 (b :: t)) ++ 0x22 :: X)
                  (by decide) (by decide))
              rw [show hex (0x2028 &&& 0xF) = 0x38 from by decide]
              simp only [List.cons_append, List.nil_append] at hr ⊢
              rw [hr, ih _ X m hdrop (by simp only [List.length_cons, List.length_nil] at hn; omega)]
              rfl
            · rw [h]
              have hr := read_backslash m _ _ _
                (readEscape_u 0x32 0x30 0x32 0x39 0x2029
                  (appendStringLoop fuel (List.drop 3 (b :: t)) ++ 0x22 :: X)
                  (by decide) (by decide))
              rw [show hex (0x2029 &&& 0xF) = 0x39 from by decide]
              simp only [List.cons_append, List.nil_append] at hr ⊢
              rw [hr, ih _ X m hdrop (by simp only [List.length_cons, List.length_nil] at hn; omega)]
              rfl
          · rw [if_neg hls] at hn ⊢
            rw [List.length_append] at hn
            obtain ⟨m, rfl⟩ : ∃ m, n = m +
                (List.take (DecodeRuneInString (b :: t)).2 (b :: t)).length :=
              ⟨n - (List.take (DecodeRuneInString (b :: t)).2 (b :: t)).length, by omega⟩
            rw [List.append_assoc, read_chunk m _ _ hchunk, ih _ X m hdrop (by omega)]
            rfl

theorem hex_ge (n : Nat) : 0x30 ≤ hex n := by
  unfold hex
  split_ifs <;> omega

/-- Every byte appendString writes between the quotes is at least 0x20: no
control character, so no newline, is written raw. -/
theorem appendStringLoop_ge (fuel : Nat) :
    ∀ (s : GoString), ∀ x ∈ appendStringLoop fuel s, 0x20 ≤ x := by
  induction fuel with
  | zero =>
    intro s x hx
    rcases s with _ | ⟨b, t⟩ <;> simp [appendStringLoop] at hx
  | succ fuel ih =>
    intro s x hx
    rcases s with _ | ⟨b, t⟩
    · simp [appendStringLoop] at hx
    · by_cases hb : b < 0x80
      · simp only [appendStringLoop, RuneSelf, if_pos hb, List.mem_append] at hx
        rcases hx with hx | hx
        · by_cases hs : htmlSafeSet b = true
          · rw [if_pos hs] at hx
            simp only [htmlSafeSet, decide_eq_true_eq] at hs
            simp only [List.mem_singleton] at hx
            omega
          · rw [if_neg hs] at hx
            have h1 := hex_ge (b >>> 4)
            have h2 := hex_ge (b &&& 0xF)
            unfold escapeByte at hx
            split_ifs at hx with c1 <;>
              simp only [List.mem_cons, List.mem_singleton, List.mem_nil_iff, or_false] at hx <;>
              omega
        · exact ih t x hx
      · simp only [appendStringLoop, RuneSelf, if_neg hb, decode_take4] at hx
        by_cases hinv : (DecodeRuneInString (b :: t)).1 = RuneError ∧
            (DecodeRuneInString (b :: t)).2 = 1
        · rw [if_pos hinv] at hx
          simp only [List.mem_append, List.mem_cons, List.mem_singleton, List.mem_nil_iff,
            or_false] at hx
          rcases hx with hx | hx
          · omega
          · exact ih t x hx
        · rw [if_neg hinv] at hx
          obtain ⟨_, hchunk⟩ := decode_chunk b t (by omega) hinv
          by_cases hls : (DecodeRuneInString (b :: t)).1 = 0x2028 ∨
              (DecodeRuneInString (b :: t)).1 = 0x2029
          · rw [if_pos hls] at hx
            have h1 := hex_ge ((DecodeRuneInString (b :: t)).1 &&& 0xF)
            simp only [List.mem_append, List.mem_cons, List.mem_singleton, List.mem_nil_iff,
              or_false] at hx
            rcases hx with hx | hx
            · omega
            · exact ih _ x hx
          · rw [if_neg hls] at hx
            simp only [List.mem_append] at hx
            rcases hx with hx | hx
            · have := hchunk x hx
              omega
            · exact ih _ x hx

theorem marshalTweet_ge (t : Tweet) : ∀ x ∈ marshalTweet t, 0x20 ≤ x := by
  intro x hx
  simp only [marshalTweet, appendString, List.mem_append, List.mem_cons, List.mem_singleton,
    List.mem_nil_iff, or_false] at hx
  rcases hx with ((hx | hx) | hx) | hx
  · rcases hx with (rfl | rfl) | hx
    · decide
    · decide
    · have : ∀ y ∈ str "text", 0x20 ≤ y := by decide
      exact this x hx
  · rcases hx with rfl | rfl <;> decide
  · rcases hx with rfl | hx | rfl
    · decide
    · exact appendStringLoop_ge _ _ x hx
    · decide
  · subst hx; decide

theorem readString_appendString (s X : GoString) :
    readString (appendStringLoop s.length s ++ 0x22 :: X) = some (coerceUTF8 s, X) :=
  read_appendStringLoop s.length s X _ (Nat.le_refl _) (by simp)

theorem skipWs_cons (b : Nat) (X : GoString)
    (h : ¬ (b = 0x20 ∨ b = 0x09 ∨ b = 0x0A ∨ b = 0x0D)) : skipWs (b :: X) = b :: X := by
  rw [skipWs, if_neg h]

/-- The line written for a tweet parses as a JSON object with the one member
text, whose value is the tweet's text coerced to valid UTF-8. -/
theorem parseLine_encodeLine (t : Tweet) :
    parseLine (encodeLine t) = some [(str "text", coerceUTF8 t.Text)] := by
  have hkey : ∀ X : GoString,
      readString (str "text" ++ 0x22 :: X) = some (str "text", X) := by
    intro X
    have := readString_appendString (str "text") X
    exact this
  have hshape : encodeLine t = 0x7B :: 0x22 :: (str "text" ++ 0x22 :: 0x3A :: 0x22 ::
      (appendStringLoop t.Text.length t.Text ++ 0x22 :: [0x7D, 0x0A])) := by
    simp [encodeLine, marshalTweet, appendString]
  have hm : readMember (0x22 :: (str "text" ++ 0x22 :: 0x3A :: 0x22 ::
      (appendStringLoop t.Text.length t.Text ++ 0x22 :: [0x7D, 0x0A]))) =
      some ((str "text", coerceUTF8 t.Text), [0x7D, 0x0A]) := by
    simp only [readMember, if_pos, hkey]
    rw [skipWs_cons 0x3A _ (by decide)]
    simp only [if_pos]
    rw [skipWs_cons 0x22 _ (by decide)]
    simp only [if_pos, readString_appendString]
    rw [skipWs_cons 0x7D _ (by decide)]
  rw [hshape]
  simp only [parseLine, readObject]
  rw [skipWs_cons 0x7B _ (by decide)]
  simp only [if_pos]
  rw [skipWs_cons 0x22 _ (by decide)]
  simp only [if_neg (show ¬ ((0x22 : Nat) = 0x7D) by decide), List.length_cons, readMembers, hm,
    if_pos]
  rfl

theorem coerceLoop_valid (fuel : Nat) :
    ∀ s : GoString, validLoop fuel s = true → coerceLoop fuel s = s := by
  induction fuel with
  | zero =>
    intro s h
    rcases s with _ | ⟨b, t⟩
    · rfl
    · simp [validLoop] at h
  | succ fuel ih =>
    intro s h
    rcases s with _ | ⟨b, t⟩
    · rfl
    · simp only [validLoop] at h
      simp only [coerceLoop]
      split_ifs at h with hinv
      rw [if_neg hinv, ih _ h]
      exact List.take_append_drop _ _

theorem coerceLoop_ascii_prefix (p : GoString) (hp : ∀ x ∈ p, x < 0x80) (fuel : Nat)
    (k : GoString) : coerceLoop (p.length + fuel) (p ++ k) = p ++ coerceLoop fuel k := by
  induction p with
  | nil => simp
  | cons b p ih =>
    have e : (b :: p).length + fuel = (p.length + fuel) + 1 := by
      simp only [List.length_cons]; omega
    rw [e, List.cons_append, coerceLoop_ascii _ b _ (hp b (List.mem_cons_self _ _)),
      ih (fun x hx => hp x (List.mem_cons_of_mem _ hx))]
    rfl

theorem coerceUTF8_mention (k : GoString) :
    coerceUTF8 (mentionPrefix ++ k) = mentionPrefix ++ coerceUTF8 k := by
  unfold coerceUTF8
  rw [List.length_append]
  exact coerceLoop_ascii_prefix mentionPrefix (by decide) k.length k

theorem coerceUTF8_valid (k : GoString) (h : ValidString k = true) : coerceUTF8 k = k :=
  coerceLoop_valid k.length k h

/-! ## The handler: lemmas -/

theorem handler_not_post (env : Env) (r : Request) (n : Nat) (hm : r.Method ≠ str "POST") :
    tweetStreamHandler env r n =
      (Status.returned, [Event.httpError (str "Method not allowed") 405]) := by
  simp only [tweetStreamHandler, if_pos hm]

theorem handler_bad_form (env : Env) (r : Request) (n : Nat)
    (hm : r.Method = str "POST") (hf : r.ParseForm = none) :
    tweetStreamHandler env r n =
      (Status.returned, [Event.httpError (str "Invalid form data") 400]) := by
  simp [tweetStreamHandler, hm, hf]

theorem handler_no_flusher (env : Env) (r : Request) (n : Nat) (form : Values)
    (hm : r.Method = str "POST") (hf : r.ParseForm = some form) (hfl : env.isFlusher = false) :
    tweetStreamHandler env r n =
      (Status.returned,
        [Event.logTopics (Split (FormValue form (str "track")) comma),
         Event.setContentType (str "application/json"),
         Event.httpError (str "Streaming not supported") 500]) := by
  have hl : ¬ ((Split (FormValue form (str "track")) comma).length = 0) := by
    have := split_length_pos (FormValue form (str "track")) comma
    omega
  simp [tweetStreamHandler, hm, hf, hfl, hl]

theorem count_eq_list_count (s : GoString) (c : Nat) : Count s c = List.count c s := by
  induction s with
  | nil => rfl
  | cons b s ih =>
    simp only [Count, List.count_cons, ih]
    by_cases hb : b = c
    · simp [hb]; omega
    · simp [hb]

/-! ## The statements of the specification -/

/-- C1: for every FilterSpec K the handler builds (the split of the form's track
value) and every raw value of the random source, one loop iteration draws an
index i with 0 ≤ i < len(K), and the tweet it builds and writes has text
"Someone just mentioned " followed by K[i]. -/
theorem tweet_text_is_prefix_then_keyword (env : Env) (form : Values) (st : LoopState) :
    ∃ (i : Nat) (hi : i < (Split (FormValue form (str "track")) comma).length),
      IntN (env.rand (st.draws + 1))
          ((Split (FormValue form (str "track")) comma).length : Int) = some (i : Int) ∧
      pickWord (Split (FormValue form (str "track")) comma) (env.rand (st.draws + 1)) =
          some ((Split (FormValue form (str "track")) comma).get ⟨i, hi⟩) ∧
      (makeTweet ((Split (FormValue form (str "track")) comma).get ⟨i, hi⟩)).Text =
          str "Someone just mentioned " ++
            (Split (FormValue form (str "track")) comma).get ⟨i, hi⟩ ∧
      ∃ d : Int, (loopIteration env (Split (FormValue form (str "track")) comma) st).map
          (fun s => s.events) =
        some (st.events ++ [Event.sleep d,
          Event.write (encodeLine
            { Text := str "Someone just mentioned " ++
                (Split (FormValue form (str "track")) comma).get ⟨i, hi⟩ })
            (env.writeErr st.writes),
          Event.flush]) := by
  have h := split_length_pos (FormValue form (str "track")) comma
  refine ⟨env.rand (st.draws + 1) % (Split (FormValue form (str "track")) comma).length,
    Nat.mod_lt _ h, intN_pos _ _ h, pickWord_spec _ _ h, rfl, ?_⟩
  refine ⟨sleepDuration ((env.rand st.draws % 3 : Nat) : Int), ?_⟩
  rw [loopIteration_spec env _ st h]
  rfl

/-- C2: a request whose method is not POST is answered 405 "Method not allowed"
and the handler returns with no tweet line written, whatever the form, the
track value, the writer and the number of loop turns observed. -/
theorem non_post_is_rejected_with_405 (env : Env) (r : Request) (n : Nat)
    (h : r.Method ≠ str "POST") :
    tweetStreamHandler env r n =
        (Status.returned, [Event.httpError (str "Method not allowed") 405]) ∧
      writtenLines (tweetStreamHandler env r n).2 = [] := by
  have e : tweetStreamHandler env r n =
      (Status.returned, [Event.httpError (str "Method not allowed") 405]) := by
    simp only [tweetStreamHandler, if_pos h]
  rw [e]
  exact ⟨rfl, rfl⟩

theorem non_post_is_rejected_with_405_witness :
    tweetStreamHandler
        { rand := fun _ => 0, isFlusher := true, writeErr := fun _ => false,
          ctxDone := fun _ => false }
        { Method := str "GET", ParseForm := some [(str "track", [str "go"])] } 5 =
        (Status.returned, [Event.httpError (str "Method not allowed") 405]) ∧
      writtenLines (tweetStreamHandler
        { rand := fun _ => 0, isFlusher := true, writeErr := fun _ => false,
          ctxDone := fun _ => false }
        { Method := str "GET", ParseForm := some [(str "track", [str "go"])] } 5).2 = [] :=
  non_post_is_rejected_with_405 _ _ 5 (by decide)

/-- C3 as stated fails: with every Write failing and the request's context
cancelled from the start, the handler on POST track=go is still in its loop
after two turns and has written a second tweet line after the first failed
Encode. -/
theorem loop_continues_after_failed_write_and_cancel :
    (tweetStreamHandler
        { rand := fun _ => 0, isFlusher := true, writeErr := fun _ => true,
          ctxDone := fun _ => true }
        { Method := str "POST", ParseForm := some [(str "track", [str "go"])] } 2).1 =
        Status.running ∧
      (tweetStreamHandler
        { rand := fun _ => 0, isFlusher := true, writeErr := fun _ => true,
          ctxDone := fun _ => true }
        { Method := str "POST", ParseForm := some [(str "track", [str "go"])] } 2).2 =
        [Event.logTopics [str "go"], Event.setContentType (str "application/json"),
         Event.sleep 1000000000,
         Event.write (encodeLine { Text := str "Someone just mentioned go" }) true,
         Event.flush,
         Event.sleep 1000000000,
         Event.write (encodeLine { Text := str "Someone just mentioned go" }) true,
         Event.flush] := by
  constructor <;> rfl

/-- C3 amended: the emission loop has no exit. On a POST request with a parsed
form and a flushing writer, whatever the Write results and the state of the
request's context, after n turns of the loop the handler has not returned and
has made n Encode calls, one per turn. -/
theorem loop_never_exits (env : Env) (r : Request) (form : Values) (n : Nat)
    (hm : r.Method = str "POST") (hf : r.ParseForm = some form)
    (hfl : env.isFlusher = true) :
    (tweetStreamHandler env r n).1 = Status.running ∧
      (writtenLines (tweetStreamHandler env r n).2).length = n := by
  have h := split_length_pos (FormValue form (str "track")) comma
  rw [handler_stream env r n form hm hf hfl]
  refine ⟨(runLoop_invariant env _ h (fun _ => True) (fun _ _ _ _ _ _ _ => trivial) n _
    trivial).1, ?_⟩
  rw [runLoop_lines_length env _ h]
  simp [writtenLines]

theorem loop_never_exits_witness :
    (tweetStreamHandler
        { rand := fun _ => 0, isFlusher := true, writeErr := fun k => decide (k = 0),
          ctxDone := fun k => decide (1 ≤ k) }
        { Method := str "POST", ParseForm := some [(str "track", [str "cats,dogs"])] } 7).1 =
        Status.running ∧
      (writtenLines (tweetStreamHandler
        { rand := fun _ => 0, isFlusher := true, writeErr := fun k => decide (k = 0),
          ctxDone := fun k => decide (1 ≤ k) }
        { Method := str "POST", ParseForm := some [(str "track", [str "cats,dogs"])] }
        7).2).length = 7 :=
  loop_never_exits _ _ [(str "track", [str "cats,dogs"])] 7 rfl rfl rfl

/-- C6: for every track value s the FilterSpec is the sequence of the
comma-separated segments of s: no element contains a comma, there is one more
element than s has commas, and joining the elements with "," gives s back;
adjacent commas give empty elements and nothing is trimmed, case-folded or
deduplicated. -/
theorem split_gives_comma_separated_segments (s : GoString) :
    (∀ e ∈ Split s comma, comma ∉ e) ∧
      (Split s comma).length = List.count comma s + 1 ∧
      Join (Split s comma) (str ",") = s ∧
      Split (str "a,,b") comma = [str "a", [], str "b"] ∧
      Split (str " Go,go ,Go") comma = [str " Go", str "go ", str "Go"] := by
  obtain ⟨h1, h2, h3⟩ := genSplitLoop_spec _ s comma rfl
  rw [← split_eq_loop] at h1 h2 h3
  refine ⟨h1, ?_, h3, by decide, by decide⟩
  rw [h2, count_eq_list_count]

/-- C7: on a POST request with a well-formed form whose track field is missing
or empty, the FilterSpec is the one-element sequence holding the empty string,
no 400 response is sent, and every tweet emitted has text exactly
"Someone just mentioned " (with a flushing writer the handler is in its loop
and has written n such lines after n turns). -/
theorem empty_track_gives_single_empty_keyword (env : Env) (r : Request) (form : Values)
    (n : Nat) (hm : r.Method = str "POST") (hf : r.ParseForm = some form)
    (ht : form.lookup (str "track") = none ∨ FormValue form (str "track") = []) :
    Split (FormValue form (str "track")) comma = [[]] ∧
      (∀ msg, Event.httpError msg 400 ∉ (tweetStreamHandler env r n).2) ∧
      (∀ raw, (pickWord (Split (FormValue form (str "track")) comma) raw).map makeTweet =
        some { Text := str "Someone just mentioned " }) ∧
      (∀ l ∈ writtenLines (tweetStreamHandler env r n).2,
        l = encodeLine { Text := str "Someone just mentioned " }) ∧
      (env.isFlusher = true → (tweetStreamHandler env r n).1 = Status.running ∧
        (writtenLines (tweetStreamHandler env r n).2).length = n) := by
  have hv : FormValue form (str "track") = [] := by
    rcases ht with h | h
    · simp only [FormValue, h]
    · exact h
  have hs : Split (FormValue form (str "track")) comma = [[]] := by rw [hv]; rfl
  have hpick : ∀ raw, pickWord [([] : GoString)] raw = some [] := by
    intro raw
    rw [pickWord_spec _ _ (by decide)]
    simp
  have hl : 0 < ([([] : GoString)]).length := by decide
  refine ⟨hs, ?_, ?_, ?_, ?_⟩
  · intro msg
    cases hfl : env.isFlusher with
    | false =>
      rw [handler_no_flusher env r n form hm hf hfl]
      simp
    | true =>
      rw [handler_stream env r n form hm hf hfl, hs]
      exact (runLoop_invariant env _ hl (fun ev => Event.httpError msg 400 ∉ ev)
        (fun ev _ _ _ _ h _ => by simpa using h) n _ (by simp)).2
  · intro raw
    rw [hs, hpick]
    rfl
  · cases hfl : env.isFlusher with
    | false =>
      rw [handler_no_flusher env r n form hm hf hfl]
      simp [writtenLines]
    | true =>
      rw [handler_stream env r n form hm hf hfl, hs]
      refine (runLoop_invariant env _ hl
        (fun ev => ∀ l ∈ writtenLines ev, l = encodeLine { Text := str "Someone just mentioned " })
        ?_ n _ (by simp [writtenLines])).2
      intro ev _ i hi e h _ l hmem
      rw [writtenLines_append] at hmem
      simp only [writtenLines, List.mem_append, List.mem_singleton] at hmem
      rcases hmem with hmem | hmem
      · exact h l hmem
      · rw [hmem]
        have hi0 : i = 0 := by simpa using hi
        subst hi0
        rfl
  · intro hfl
    rw [handler_stream env r n form hm hf hfl, hs]
    refine ⟨(runLoop_invariant env _ hl (fun _ => True) (fun _ _ _ _ _ _ _ => trivial) n _
      trivial).1, ?_⟩
    rw [runLoop_lines_length env _ hl]
    simp [writtenLines]

theorem empty_track_gives_single_empty_keyword_witness :
    Split (FormValue [(str "lang", [str "en"])] (str "track")) comma = [[]] ∧
      (∀ msg, Event.httpError msg 400 ∉ (tweetStreamHandler
        { rand := fun k => k, isFlusher := true, writeErr := fun _ => false,
          ctxDone := fun _ => false }
        { Method := str "POST", ParseForm := some [(str "lang", [str "en"])] } 3).2) ∧
      (∀ raw, (pickWord (Split (FormValue [(str "lang", [str "en"])] (str "track")) comma)
          raw).map makeTweet = some { Text := str "Someone just mentioned " }) ∧
      (∀ l ∈ writtenLines (tweetStreamHandler
        { rand := fun k => k, isFlusher := true, writeErr := fun _ => false,
          ctxDone := fun _ => false }
        { Method := str "POST", ParseForm := some [(str "lang", [str "en"])] } 3).2,
        l = encodeLine { Text := str "Someone just mentioned " }) ∧
      ((true = true) → (tweetStreamHandler
        { rand := fun k => k, isFlusher := true, writeErr := fun _ => false,
          ctxDone := fun _ => false }
        { Method := str "POST", ParseForm := some [(str "lang", [str "en"])] } 3).1 =
          Status.running ∧
        (writtenLines (tweetStreamHandler
        { rand := fun k => k, isFlusher := true, writeErr := fun _ => false,
          ctxDone := fun _ => false }
        { Method := str "POST", ParseForm := some [(str "lang", [str "en"])] } 3).2).length
          = 3) :=
  empty_track_gives_single_empty_keyword
    { rand := fun k => k, isFlusher := true, writeErr := fun _ => false,
      ctxDone := fun _ => false }
    { Method := str "POST", ParseForm := some [(str "lang", [str "en"])] }
    [(str "lang", [str "en"])] 3 rfl rfl (Or.inl (by decide))

/-- C8 as stated fails: for track=cats,cat the FilterSpec is [cats, cat]; the
draw 0 chooses cats, and the text "Someone just mentioned cats" also contains
cat, another element of the FilterSpec. -/
theorem text_may_contain_two_keywords :
    Split (str "cats,cat") comma = [str "cats", str "cat"] ∧
      pickWord (Split (str "cats,cat") comma) 0 = some (str "cats") ∧
      str "cat" ∈ Split (str "cats,cat") comma ∧
      str "cat" ≠ str "cats" ∧
      str "cat" <:+: (makeTweet (str "cats")).Text :=
  ⟨by decide, by decide, by decide, by decide,
    ⟨str "Someone just mentioned ", str "s", by decide⟩⟩

/-- C8 amended: for every FilterSpec K of a connection and every tweet emitted
on it, the text contains a keyword of K: the chosen keyword is an element of K
and occurs in the text, as its suffix after the fixed prefix. Other elements
of K may occur in the text as well. -/
theorem text_contains_the_chosen_keyword (form : Values) (raw : Nat) :
    ∃ w, w ∈ Split (FormValue form (str "track")) comma ∧
      pickWord (Split (FormValue form (str "track")) comma) raw = some w ∧
      w <:+: (makeTweet w).Text ∧
      (makeTweet w).Text = str "Someone just mentioned " ++ w := by
  have h := split_length_pos (FormValue form (str "track")) comma
  refine ⟨_, List.get_mem _ _ _, pickWord_spec _ raw h, ?_, rfl⟩
  exact ⟨mentionPrefix, [], by simp [makeTweet]⟩

/-- C9: every delay of the emission loop is a whole number of seconds among 1,
2 and 3: for every raw value of the random source IntN(3) returns r with
0 ≤ r < 3 and the sleep lasts (1 + r) seconds, between 1 and 3; each of 1, 2
and 3 seconds is attained; and in the handler's actions every write of a tweet
line comes directly after a sleep of 1, 2 or 3 seconds, the first included. -/
theorem sleep_is_one_to_three_seconds :
    (∀ raw : Nat, ∃ r : Int, IntN raw 3 = some r ∧ 0 ≤ r ∧ r < 3 ∧
        sleepDuration r = (1 + r) * Second ∧
        1 * Second ≤ sleepDuration r ∧ sleepDuration r ≤ 3 * Second) ∧
      (∃ (raw : Nat) (r : Int), IntN raw 3 = some r ∧ sleepDuration r = 1 * Second) ∧
      (∃ (raw : Nat) (r : Int), IntN raw 3 = some r ∧ sleepDuration r = 2 * Second) ∧
      (∃ (raw : Nat) (r : Int), IntN raw 3 = some r ∧ sleepDuration r = 3 * Second) ∧
      (∀ (env : Env) (r : Request) (n i : Nat) (p : GoString) (e : Bool),
        (tweetStreamHandler env r n).2[i]? = some (Event.write p e) →
        ∃ (j : Nat) (k : Int), i = j + 1 ∧ 1 ≤ k ∧ k ≤ 3 ∧
          (tweetStreamHandler env r n).2[j]? = some (Event.sleep (k * Second))) := by
  refine ⟨?_, ⟨0, 0, by decide, by decide⟩, ⟨1, 1, by decide, by decide⟩,
    ⟨2, 2, by decide, by decide⟩, ?_⟩
  · intro raw
    refine ⟨((raw % 3 : Nat) : Int), intN_pos raw 3 (by decide), by omega, by omega, ?_⟩
    have hr : sleepDuration ((raw % 3 : Nat) : Int) = (1 + ((raw % 3 : Nat) : Int)) * Second :=
      sleepDuration_small _ (by omega) (by omega)
    rw [hr]
    have h0 : (0 : Int) ≤ ((raw % 3 : Nat) : Int) := by omega
    have h2 : ((raw % 3 : Nat) : Int) ≤ 2 := by omega
    refine ⟨rfl, ?_, ?_⟩ <;> unfold Second <;> omega
  · intro env r n
    have key : ∀ ev : List Event, ev = (tweetStreamHandler env r n).2 →
        ∀ (i : Nat) (p : GoString) (e : Bool), ev[i]? = some (Event.write p e) →
        ∃ (j : Nat) (k : Int), i = j + 1 ∧ 1 ≤ k ∧ k ≤ 3 ∧
          ev[j]? = some (Event.sleep (k * Second)) := by
      intro ev hev
      by_cases hm : r.Method = str "POST"
      · cases hf : r.ParseForm with
        | none =>
          rw [handler_bad_form env r n hm hf] at hev
          subst hev
          intro i p e hi
          match i with
          | 0 => simp at hi
          | i + 1 => simp at hi
        | some form =>
          have h := split_length_pos (FormValue form (str "track")) comma
          cases hfl : env.isFlusher with
          | false =>
            rw [handler_no_flusher env r n form hm hf hfl] at hev
            subst hev
            intro i p e hi
            match i with
            | 0 => simp at hi
            | 1 => simp at hi
            | 2 => simp at hi
            | i + 3 => simp at hi
          | true =>
            rw [handler_stream env r n form hm hf hfl] at hev
            subst hev
            refine (runLoop_invariant env _ h
              (fun ev => ∀ (i : Nat) (p : GoString) (e : Bool),
                ev[i]? = some (Event.write p e) →
                ∃ (j : Nat) (k : Int), i = j + 1 ∧ 1 ≤ k ∧ k ≤ 3 ∧
                  ev[j]? = some (Event.sleep (k * Second)))
              ?_ n _ ?_).2
            · intro ev rr w hw e0 hP hr i p e hi
              by_cases hlt : i < ev.length
              · rw [List.getElem?_append_left hlt] at hi
                obtain ⟨j, k, hj, hk1, hk3, hjs⟩ := hP i p e hi
                refine ⟨j, k, hj, hk1, hk3, ?_⟩
                rw [List.getElem?_append_left (by omega)]
                exact hjs
              · rw [List.getElem?_append_right (by omega)] at hi
                have hcase : i - ev.length = 1 := by
                  match hd : i - ev.length with
                  | 0 => rw [hd] at hi; simp at hi
                  | 1 => rfl
                  | 2 => rw [hd] at hi; simp at hi
                  | d + 3 => rw [hd] at hi; simp at hi
                refine ⟨ev.length, 1 + (rr : Int), by omega, by omega, by omega, ?_⟩
                rw [List.getElem?_append_right (by omega)]
                simp only [Nat.sub_self, List.getElem?_cons_zero]
                rw [sleepDuration_small _ (by omega) (by omega)]
            · intro i p e hi
              match i with
              | 0 => simp at hi
              | 1 => simp at hi
              | i + 2 => simp at hi
      · rw [handler_not_post env r n hm] at hev
        subst hev
        intro i p e hi
        match i with
        | 0 => simp at hi
        | i + 1 => simp at hi
    exact key _ rfl

theorem sleep_is_one_to_three_seconds_witness :
    (tweetStreamHandler
        { rand := fun k => k + 1, isFlusher := true, writeErr := fun _ => false,
          ctxDone := fun _ => false }
        { Method := str "POST", ParseForm := some [(str "track", [str "go"])] } 1).2[3]? =
        some (Event.write (encodeLine { Text := str "Someone just mentioned go" }) false) ∧
      ∃ (j : Nat) (k : Int), 3 = j + 1 ∧ 1 ≤ k ∧ k ≤ 3 ∧
        (tweetStreamHandler
          { rand := fun k => k + 1, isFlusher := true, writeErr := fun _ => false,
            ctxDone := fun _ => false }
          { Method := str "POST", ParseForm := some [(str "track", [str "go"])] } 1).2[j]? =
          some (Event.sleep (k * Second)) :=
  ⟨rfl, sleep_is_one_to_three_seconds.2.2.2.2 _ _ 1 3 _ _ rfl⟩

/-- C10: the FilterSpec always has at least one element, so the handler never
answers 400 "Missing 'track' parameter", rand.IntN is called with a positive
bound and returns an index that is in bounds, and the handler never panics. -/
theorem keyword_selection_never_fails :
    (∀ s : GoString, 1 ≤ (Split s comma).length) ∧
      (∀ (env : Env) (r : Request) (n : Nat),
        Event.httpError missingTrackMsg 400 ∉ (tweetStreamHandler env r n).2 ∧
        (tweetStreamHandler env r n).1 ≠ Status.panicked) ∧
      (∀ (s : GoString) (raw : Nat), ∃ (i : Int) (w : GoString),
        0 < ((Split s comma).length : Int) ∧
        IntN raw ((Split s comma).length : Int) = some i ∧
        0 ≤ i ∧ i < ((Split s comma).length : Int) ∧
        index (Split s comma) i = some w ∧ pickWord (Split s comma) raw = some w) ∧
      (∀ (env : Env) (s : GoString) (st : LoopState),
        (loopIteration env (Split s comma) st).isSome = true) := by
  refine ⟨fun s => split_length_pos s comma, ?_, ?_, ?_⟩
  · intro env r n
    by_cases hm : r.Method = str "POST"
    · cases hf : r.ParseForm with
      | none =>
        rw [handler_bad_form env r n hm hf]
        exact ⟨by decide, by decide⟩
      | some form =>
        have h := split_length_pos (FormValue form (str "track")) comma
        cases hfl : env.isFlusher with
        | false =>
          rw [handler_no_flusher env r n form hm hf hfl]
          refine ⟨?_, fun hc => Status.noConfusion hc⟩
          simp
        | true =>
          rw [handler_stream env r n form hm hf hfl]
          have hinv := runLoop_invariant env _ h
            (fun ev => Event.httpError missingTrackMsg 400 ∉ ev)
            (fun ev _ _ _ _ h _ => by simpa using h) n
            { draws := 0, writes := 0,
              events := [Event.logTopics (Split (FormValue form (str "track")) comma),
                         Event.setContentType (str "application/json")] } (by simp)
          refine ⟨hinv.2, ?_⟩
          rw [hinv.1]
          decide
    · rw [handler_not_post env r n hm]
      exact ⟨by decide, by decide⟩
  · intro s raw
    have h := split_length_pos s comma
    refine ⟨((raw % (Split s comma).length : Nat) : Int), _, by omega, intN_pos raw _ h,
      by omega, ?_, index_nat _ _ (Nat.mod_lt _ h), pickWord_spec _ raw h⟩
    have := Nat.mod_lt raw h
    omega
  · intro env s st
    rw [loopIteration_spec env _ st (split_length_pos s comma)]
    rfl

/-- C4: for every keyword (newline, double quote, backslash, <, > and & included)
the bytes written for one emission are one line: the opening brace, the key
"text", a colon, the JSON string literal encoding/json writes for
"Someone just mentioned " + keyword, the closing brace and one newline, with
nothing else between them. The literal is quoted and holds no byte below 0x20,
so the only newline byte of the line is its last byte; the line parses as a
JSON object with the single member text. For the keyword go the line is
{"text":"Someone just mentioned go"} and a newline. -/
theorem emission_is_one_json_line (k : GoString) :
    encodeLine (makeTweet k) =
        [0x7B, 0x22] ++ str "text" ++ [0x22, 0x3A] ++
          appendString (str "Someone just mentioned " ++ k) ++ [0x7D] ++ [0x0A] ∧
      (∃ body : GoString,
        appendString (str "Someone just mentioned " ++ k) = [0x22] ++ body ++ [0x22] ∧
        ∀ x ∈ body, 0x20 ≤ x) ∧
      (∀ x ∈ marshalTweet (makeTweet k), x ≠ 0x0A) ∧
      encodeLine (makeTweet k) = marshalTweet (makeTweet k) ++ [0x0A] ∧
      List.count 0x0A (encodeLine (makeTweet k)) = 1 ∧
      (∃ v : GoString, parseLine (encodeLine (makeTweet k)) = some [(str "text", v)]) ∧
      encodeLine (makeTweet (str "go")) =
        [0x7B, 0x22] ++ str "text" ++ [0x22, 0x3A, 0x22] ++ str "Someone just mentioned go" ++
          [0x22, 0x7D, 0x0A] ∧
      encodeLine (makeTweet [0x0A, 0x22, 0x5C, 0x3C, 0x3E, 0x26]) =
        [0x7B, 0x22] ++ str "text" ++ [0x22, 0x3A, 0x22] ++ str "Someone just mentioned " ++
          [0x5C, 0x6E, 0x5C, 0x22, 0x5C, 0x5C] ++ str "\\u003c\\u003e\\u0026" ++
          [0x22, 0x7D, 0x0A] := by
  have hno : ∀ x ∈ marshalTweet (makeTweet k), x ≠ 0x0A := by
    intro x hx
    have := marshalTweet_ge (makeTweet k) x hx
    omega
  refine ⟨rfl,
    ⟨appendStringLoop (str "Someone just mentioned " ++ k).length
      (str "Someone just mentioned " ++ k), rfl, appendStringLoop_ge _ _⟩,
    hno, rfl, ?_, ⟨_, parseLine_encodeLine _⟩, by decide, by decide⟩
  have h0 : List.count 0x0A (marshalTweet (makeTweet k)) = 0 :=
    List.count_eq_zero.mpr (fun hmem => hno _ hmem rfl)
  rw [encodeLine, List.count_append, h0]
  rfl

/-- C5 as stated fails: for the keyword made of the single byte 0xFF (sent as
track=%FF) the emitted line parses to the field text with value
"Someone just mentioned " followed by the three bytes of U+FFFD, not by the
keyword. -/
theorem invalid_utf8_keyword_is_not_read_back :
    parseLine (encodeLine (makeTweet [0xFF])) =
        some [(str "text", str "Someone just mentioned " ++ [0xEF, 0xBF, 0xBD])] ∧
      str "Someone just mentioned " ++ [0xEF, 0xBF, 0xBD] ≠
        str "Someone just mentioned " ++ [0xFF] := by
  constructor
  · rw [parseLine_encodeLine]
    decide
  · decide

/-- C5 amended: for every keyword k that is valid UTF-8, parsing the emitted
line as JSON yields an object with exactly one field, named text, whose value
is "Someone just mentioned " followed by k verbatim. For every keyword the
line parses to exactly one field text whose value begins with the fixed
prefix; the bytes of k that are not valid UTF-8 are read back as U+FFFD. -/
theorem valid_utf8_keyword_is_read_back (k : GoString) (h : ValidString k = true) :
    parseLine (encodeLine (makeTweet k)) =
        some [(str "text", str "Someone just mentioned " ++ k)] ∧
      ∀ k0 : GoString, parseLine (encodeLine (makeTweet k0)) =
        some [(str "text", str "Someone just mentioned " ++ coerceUTF8 k0)] := by
  have hall : ∀ k0 : GoString, parseLine (encodeLine (makeTweet k0)) =
      some [(str "text", str "Someone just mentioned " ++ coerceUTF8 k0)] := by
    intro k0
    rw [parseLine_encodeLine]
    exact congrArg (fun v => some [(str "text", v)]) (coerceUTF8_mention k0)
  refine ⟨?_, hall⟩
  rw [hall k, coerceUTF8_valid k h]

theorem valid_utf8_keyword_is_read_back_witness :
    ValidString (str "a<b" ++ [0x0A, 0x22, 0xC3, 0xA9, 0xE2, 0x80, 0xA8]) = true ∧
      parseLine (encodeLine (makeTweet (str "a<b" ++ [0x0A, 0x22, 0xC3, 0xA9, 0xE2, 0x80, 0xA8])))
        = some [(str "text", str "Someone just mentioned " ++
            (str "a<b" ++ [0x0A, 0x22, 0xC3, 0xA9, 0xE2, 0x80, 0xA8]))] :=
  ⟨by decide,
    (valid_utf8_keyword_is_read_back (str "a<b" ++ [0x0A, 0x22, 0xC3, 0xA9, 0xE2, 0x80, 0xA8])
      (by decide)).1⟩

end MockTwitterStream
